import Mathlib

/-!
Verification of the `unddser` image-transformation worker.

Shallow embedding of `src/lib.rs`: an edge HTTP image proxy that fetches a
source image from an upstream service, optionally crops it, re-encodes it
into a negotiated format and assembles the response headers.

External collaborators are embedded from their documented behaviour where
the Rust code calls into them: the `image` crate's `ImageFormat` tables
(`from_extension`, `from_mime_type`, `to_mime_type`, `extensions_str`), the
panicking bounds assertion of `GenericImageView::view`, and the
single-flight semantics of `quick_cache::sync::Cache::get_value_or_guard_async`.
Actual pixel decoding/encoding is abstracted as environment parameters,
since no property here depends on pixel contents.

String operations are implemented structurally over `List Char` so that all
definitions reduce in the kernel.
-/

namespace Unddser

/-- Rust `char::to_ascii_lowercase`. -/
def asciiLowerChar (c : Char) : Char :=
  if 'A' ≤ c ∧ c ≤ 'Z' then Char.ofNat (c.toNat + 32) else c


/-- Rust `str::to_ascii_lowercase`. -/
def asciiLower (s : String) : String :=
  ⟨s.data.map asciiLowerChar⟩


/-- Whitespace as trimmed by Rust `str::trim` (ASCII subset; the Unicode
whitespace characters beyond these do not occur in the header values the
code handles). -/
def isWS (c : Char) : Bool :=
  c == ' ' || c == '\t' || c == '\n' || c == '\r'


/-- Rust `str::trim` on a character list. -/
def trimChars (l : List Char) : List Char :=
  ((l.dropWhile isWS).reverse.dropWhile isWS).reverse


/-- Rust `str::split` on a single-character pattern. -/
def splitChar (c : Char) : List Char → List (List Char)
  | [] => [[]]
  | a :: rest =>
    let r := splitChar c rest
    if a == c then [] :: r
    else
      match r with
      | [] => [[a]]
      | g :: gs => (a :: g) :: gs


/-- Rust `s.split_once(c).map_or(s, |(before, _)| before)`: the part of the
string before the first occurrence of `c` (the whole string when `c` is
absent). -/
def beforeChar (c : Char) (l : List Char) : List Char :=
  l.takeWhile (fun a => a != c)


/-- Rust `str::ends_with` for a single-character suffix. -/
def strEndsWith (s : String) (c : Char) : Bool :=
  [c].isSuffixOf s.data


inductive ImageFormat where
  | Png | Jpeg | Gif | WebP | Pnm | Tiff | Tga | Dds | Bmp | Ico | Hdr
  | OpenExr | Farbfeld | Avif | Qoi | Pcx
  deriving DecidableEq, Repr


/-- Embeds `ImageFormat::from_extension` (lowercases its argument, then matches). -/
def ImageFormat.fromExtension (ext : String) : Option ImageFormat :=
  match asciiLower ext with
  | "avif" => some .Avif
  | "jpg" | "jpeg" | "jfif" => some .Jpeg
  | "png" | "apng" => some .Png
  | "gif" => some .Gif
  | "webp" => some .WebP
  | "tif" | "tiff" => some .Tiff
  | "tga" => some .Tga
  | "dds" => some .Dds
  | "bmp" => some .Bmp
  | "ico" => some .Ico
  | "hdr" => some .Hdr
  | "exr" => some .OpenExr
  | "pbm" | "pam" | "ppm" | "pgm" => some .Pnm
  | "ff" => some .Farbfeld
  | "qoi" => some .Qoi
  | "pcx" => some .Pcx
  | _ => none


/-- Embeds `ImageFormat::from_mime_type` (exact match, no lowercasing of the
already-trimmed candidate beyond what the crate does). -/
def ImageFormat.fromMimeType (m : String) : Option ImageFormat :=
  match m with
  | "image/avif" => some .Avif
  | "image/jpeg" => some .Jpeg
  | "image/png" => some .Png
  | "image/gif" => some .Gif
  | "image/webp" => some .WebP
  | "image/tiff" => some .Tiff
  | "image/x-targa" | "image/x-tga" => some .Tga
  | "image/vnd-ms.dds" => some .Dds
  | "image/bmp" => some .Bmp
  | "image/x-icon" | "image/vnd.microsoft.icon" => some .Ico
  | "image/vnd.radiance" => some .Hdr
  | "image/x-exr" => some .OpenExr
  | "image/x-portable-bitmap" | "image/x-portable-graymap"
  | "image/x-portable-pixmap" | "image/x-portable-anymap" => some .Pnm
  | "image/x-qoi" | "image/qoi" => some .Qoi
  | "image/vnd.zbrush.pcx" | "image/x-pcx" => some .Pcx
  | _ => none


/-- Embeds `ImageFormat::to_mime_type`. -/
def ImageFormat.toMimeType : ImageFormat → String
  | .Avif => "image/avif"
  | .Jpeg => "image/jpeg"
  | .Png => "image/png"
  | .Gif => "image/gif"
  | .WebP => "image/webp"
  | .Tiff => "image/tiff"
  | .Tga => "image/x-targa"
  | .Dds => "image/vnd-ms.dds"
  | .Bmp => "image/bmp"
  | .Ico => "image/x-icon"
  | .Hdr => "image/vnd.radiance"
  | .OpenExr => "image/x-exr"
  | .Pnm => "image/x-portable-anymap"
  | .Farbfeld => "application/octet-stream"
  | .Qoi => "image/x-qoi"
  | .Pcx => "image/vnd.zbrush.pcx"


/-- Embeds `ImageFormat::extensions_str` (the first listed extension is the one
`process_image` uses for the content-disposition filename). -/
def ImageFormat.extensionsStr : ImageFormat → List String
  | .Png => ["png"]
  | .Jpeg => ["jpg", "jpeg"]
  | .Gif => ["gif"]
  | .WebP => ["webp"]
  | .Pnm => ["pbm", "pam", "ppm", "pgm"]
  | .Tiff => ["tiff", "tif"]
  | .Tga => ["tga"]
  | .Dds => ["dds"]
  | .Bmp => ["bmp"]
  | .Ico => ["ico"]
  | .Hdr => ["hdr"]
  | .OpenExr => ["exr"]
  | .Farbfeld => ["ff"]
  | .Avif => ["avif"]
  | .Qoi => ["qoi"]
  | .Pcx => ["pcx"]


/-- One candidate of the `Accept` header as the loop body treats it:
`v.split_once(';').map_or(v, |(s, _)| s).trim()`. -/
def stripAcceptParams (v : List Char) : String :=
  ⟨trimChars (beforeChar ';' v)⟩


/-- The `for v in accept.split(",")` loop: first candidate whose stripped,
trimmed form is a known MIME type. -/
def acceptLoop : List (List Char) → Option ImageFormat
  | [] => none
  | v :: rest =>
    match ImageFormat.fromMimeType (stripAcceptParams v) with
    | some f => some f
    | none => acceptLoop rest


/-- lib.rs 39–56: `params.format.and_then(ImageFormat::from_extension)
.or_else(|| ...accept loop...).unwrap_or(ImageFormat::Png)`. -/
def outFormat (format : Option String) (accept : Option String) : ImageFormat :=
  ((format.bind ImageFormat.fromExtension).orElse (fun _ =>
    match accept with
    | some a => acceptLoop (splitChar ',' a.data)
    | none => none)).getD ImageFormat.Png


/-- Negotiation as §4.1 of the spec words it: if the explicit format string
maps to a known extension use it; otherwise split the `Accept` header on
`,`, strip each candidate's `;`-suffix, trim whitespace, and take the first
candidate matching a known MIME type; default to PNG. -/
def specNegotiate (format : Option String) (accept : Option String) : ImageFormat :=
  match format.bind ImageFormat.fromExtension with
  | some f => f
  | none =>
    match accept with
    | none => ImageFormat.Png
    | some a =>
      (((splitChar ',' a.data).map stripAcceptParams).findSome?
        ImageFormat.fromMimeType).getD ImageFormat.Png


/-- Embeds `std::path::Path::file_name`: the last non-empty, non-`.` component, or
none when the path ends in `..` or has no components. -/
def pathFileName (path : String) : Option String :=
  let segs := (splitChar '/' path.data).filter
    (fun s => !(s.isEmpty || s == ['.']))
  match segs.getLast? with
  | none => none
  | some l => if l == ['.', '.'] then none else some ⟨l⟩


/-- Helper for `file_stem`: the portion of `l` strictly before its last `.`. -/
def beforeLastDot (l : List Char) : List Char :=
  (((l.reverse).dropWhile (fun c => c != '.')).drop 1).reverse


/-- Embeds `std::path::Path::file_stem` on a file name: the portion before the
final `.`; the whole name when there is no `.`, or when the only `.` is the
leading character. -/
def fileStem (name : List Char) : List Char :=
  match name with
  | [] => []
  | c :: rest =>
    if rest.contains '.' then c :: beforeLastDot rest
    else name


/-- The `retain` predicate: `c.is_ascii() && !c.is_ascii_control()`. -/
def keepFilenameChar (c : Char) : Bool :=
  c.toNat ≤ 127 && !(c.toNat < 32 || c.toNat == 127)


/-- The filename placed in the content-disposition header: the request
path's file name with its extension replaced by the output format's first
canonical extension (`set_extension` is a no-op when the path has no file
name, and then no header is set at all), with non-ASCII and control
characters removed. -/
def dispositionFilename (path : String) (fmt : ImageFormat) : Option String :=
  match pathFileName path with
  | none => none
  | some name =>
    let withExt := match fmt.extensionsStr with
      | [] => name.data
      | e :: _ => fileStem name.data ++ '.' :: e.data
    some ⟨withExt.filter keepFilenameChar⟩


def HeaderMap := String → Option String


def HeaderMap.empty : HeaderMap := fun _ => none


def HeaderMap.set (hs : HeaderMap) (name value : String) : HeaderMap :=
  fun k => if k == asciiLower name then some value else hs k


def HeaderMap.get (hs : HeaderMap) (name : String) : Option String :=
  hs (asciiLower name)


/-- The query parameters deserialized by `req.query::<Params>()`. -/
structure Params where
  format : Option String
  x : Option Nat
  y : Option Nat
  w : Option Nat
  h : Option Nat


/-- The parts of the inbound `worker::Request` the handler reads. -/
structure Request where
  path : String
  accept : Option String
  acceptEncoding : Option String
  params : Params


/-- The upstream origin's response: status code, headers, raw body bytes. -/
structure UpstreamResponse where
  status : Nat
  headers : String → Option String
  body : List Nat


/-- Embeds `image::DynamicImage`: a decoded bitmap with dimensions and pixels. -/
structure Bitmap where
  width : Nat
  height : Nat
  px : Nat → Nat → Nat


/-- Embeds `GenericImageView::view(x, y, w, h).to_image()`: the w×h sub-bitmap at
offset (x, y). The crate asserts `x+w ≤ width ∧ y+h ≤ height` before
constructing the view; the pipeline below models the failed assertion as a
panic outcome. -/
def Bitmap.view (b : Bitmap) (x y w h : Nat) : Bitmap :=
  ⟨w, h, fun i j => b.px (x + i) (y + j)⟩


/-- Failure of `ImageReader::with_guessed_format()` or of `decode()`. -/
inductive DecodeFailure where
  | guess (e : String)
  | malformed (e : String)


/-- External collaborators of the handler: the upstream service binding,
the codec's decode/encode (abstract — no claim depends on pixel data), and
the `BROWSER` environment variable used by the out-of-scope preview
redirect route. -/
structure PipelineEnv where
  upstream : String → UpstreamResponse
  decode : List Nat → Except DecodeFailure Bitmap
  encode : Bitmap → ImageFormat → Except String (List Nat)
  browser : Option String


/-- The process-wide `CACHE`: `quick_cache::sync::Cache<String,
Arc<DynamicImage>>` keyed by request path. Modelled as an association
list; the capacity-4 eviction policy is not modelled (no claim depends on
eviction). -/
def CacheState := List (String × Bitmap)


def lookupCache (c : CacheState) (k : String) : Option Bitmap :=
  (c.find? (fun p => p.1 == k)).map (fun p => p.2)


def insertCache (c : CacheState) (k : String) (v : Bitmap) : CacheState :=
  (k, v) :: c


/-- Observable side effects of one request, in order. -/
inductive Effect where
  | fetch (path : String)
  | decodeOp
  | encodeOp (width height : Nat) (fmt : ImageFormat)
  | cacheLookup (path : String) (hit : Bool)
  | cacheInsert (path : String)
  deriving DecidableEq, Repr


/-- The final result of one request as the worker surfaces it. -/
inductive Outcome where
  | ok (headers : HeaderMap) (body : List Nat)
  | errorResponse (message : String) (status : Nat)
  | passthrough (resp : UpstreamResponse)
  | redirect (target : String)
  | panic


/-- The HTTP status the outcome carries (`none` for a panic, which aborts
the task without this code producing a response). -/
def statusOf : Outcome → Option Nat
  | .ok _ _ => some 200
  | .errorResponse _ s => some s
  | .passthrough r => some r.status
  | .redirect _ => some 302
  | .panic => none


structure RunResult where
  outcome : Outcome
  cache : CacheState
  effects : List Effect


inductive GetImageRes where
  | fail (message : String) (status : Nat)
  | passthrough (resp : UpstreamResponse)
  | ok (img : Bitmap) (headers : HeaderMap)


/-- Result of `get_image` together with the effects it performed. -/
structure GIOut where
  res : GetImageRes
  effs : List Effect


/-- The caching-relevant headers copied from the upstream response
(lib.rs 160). -/
def upstreamHeaderNames : List String :=
  ["last-modified", "etag", "cache-control", "expires", "date"]


/-- lib.rs 160–166: copy each named header from the upstream response into
the outgoing headers when present. -/
def copyUpstreamHeaders (resp : UpstreamResponse) :
    List String → HeaderMap → HeaderMap
  | [], hs => hs
  | n :: rest, hs =>
    copyUpstreamHeaders resp rest
      (match resp.headers n with
       | some v => hs.set n v
       | none => hs)


/-- lib.rs 140–187: fetch the source image from the `upstream` service
binding; ≥400 becomes a 500 error naming the status, 304 is returned
verbatim, otherwise caching headers are copied and the body decoded. -/
def get_image (env : PipelineEnv) (path : String) (hs : HeaderMap) : GIOut :=
  if 400 ≤ (env.upstream path).status then
    ⟨.fail (toString (env.upstream path).status ++ " error from upstream") 500,
      [.fetch path]⟩
  else if (env.upstream path).status == 304 then
    ⟨.passthrough (env.upstream path), [.fetch path]⟩
  else
    match env.decode (env.upstream path).body with
    | .error (.guess e) =>
        ⟨.fail ("Failed to guess format: " ++ e) 500, [.fetch path, .decodeOp]⟩
    | .error (.malformed e) =>
        ⟨.fail ("Failed to decode image: " ++ e) 500, [.fetch path, .decodeOp]⟩
    | .ok img =>
        ⟨.ok img (copyUpstreamHeaders (env.upstream path) upstreamHeaderNames hs),
          [.fetch path, .decodeOp]⟩


/-- lib.rs 90–98: the first comma-separated item of the inbound
accept-encoding header, trimmed. -/
def firstEncoding (enc : String) : String :=
  ⟨trimChars ((splitChar ',' enc.data).headD [])⟩


/-- lib.rs 58–98: the headers assembled before any fetch — conditional
content-disposition, content-type from the negotiated format, CORS
constants, and the mirrored content-encoding. -/
def baseHeaders (req : Request) (fmt : ImageFormat) : HeaderMap :=
  let h1 := match dispositionFilename req.path fmt with
    | some f =>
        HeaderMap.empty.set "content-disposition"
          ("inline; filename=\"" ++ f ++ "\"")
    | none => HeaderMap.empty
  let h2 := h1.set "content-type" fmt.toMimeType
  let h3 := (((h2.set "Access-Control-Allow-Origin" "*").set
      "Access-Control-Allow-Methods" "*").set
      "Access-Control-Max-Age" "86400").set "Access-Control-Allow-Headers" "*"
  match req.acceptEncoding with
  | some enc => h3.set "content-encoding" (firstEncoding enc)
  | none => h3


/-- lib.rs 118–124: `image.view(x, y, w, h)` (which asserts the rectangle
is inside the bitmap — a failed assertion panics) followed by
`.to_image().write_to(&mut output, out_format)`. -/
def cropEncode (env : PipelineEnv) (hs : HeaderMap) (fmt : ImageFormat)
    (img : Bitmap) (x y w h : Nat) (cache : CacheState) (effs : List Effect) :
    RunResult :=
  if x + w ≤ img.width ∧ y + h ≤ img.height then
    match env.encode (img.view x y w h) fmt with
    | .error e =>
        ⟨.errorResponse ("Failed to write cropped image: " ++ e) 500, cache,
          effs ++ [.encodeOp (img.view x y w h).width (img.view x y w h).height fmt]⟩
    | .ok bytes =>
        ⟨.ok hs bytes, cache,
          effs ++ [.encodeOp (img.view x y w h).width (img.view x y w h).height fmt]⟩
  else
    ⟨.panic, cache, effs⟩


/-- lib.rs 109–124: the crop branch. The bitmap cache is consulted for the
request path; on a miss this caller fetches and decodes, then inserts the
bitmap (the single-flight coalescing of concurrent misses is modelled
separately below, this is the sequential data path). -/
def cropPath (env : PipelineEnv) (path : String) (hs : HeaderMap)
    (fmt : ImageFormat) (x y w h : Nat) (cache : CacheState) : RunResult :=
  match lookupCache cache path with
  | some img => cropEncode env hs fmt img x y w h cache [.cacheLookup path true]
  | none =>
    match (get_image env path hs).res with
    | .fail m s =>
        ⟨.errorResponse m s, cache,
          .cacheLookup path false :: (get_image env path hs).effs⟩
    | .passthrough r =>
        ⟨.passthrough r, cache,
          .cacheLookup path false :: (get_image env path hs).effs⟩
    | .ok img hs' =>
        cropEncode env hs' fmt img x y w h (insertCache cache path img)
          ((.cacheLookup path false :: (get_image env path hs).effs) ++
            [.cacheInsert path])


/-- lib.rs 125–133: the full-image branch — fetch, decode and encode
directly, with no bitmap-cache interaction. -/
def fullImage (env : PipelineEnv) (path : String) (hs : HeaderMap)
    (fmt : ImageFormat) (cache : CacheState) : RunResult :=
  match (get_image env path hs).res with
  | .fail m s => ⟨.errorResponse m s, cache, (get_image env path hs).effs⟩
  | .passthrough r => ⟨.passthrough r, cache, (get_image env path hs).effs⟩
  | .ok img hs' =>
    match env.encode img fmt with
    | .error e =>
        ⟨.errorResponse ("Failed to write image: " ++ e) 500, cache,
          (get_image env path hs).effs ++ [.encodeOp img.width img.height fmt]⟩
    | .ok bytes =>
        ⟨.ok hs' bytes, cache,
          (get_image env path hs).effs ++ [.encodeOp img.width img.height fmt]⟩


/-- lib.rs 20–138: the request handler. Paths ending in `/` take the
out-of-scope preview-redirect route (URL assembly elided; a missing
`BROWSER` variable is a 500 via `err`). Otherwise the output format is
negotiated, the response headers assembled, and the crop branch is taken
exactly when all four of `x, y, w, h` are present. -/
def processImage (env : PipelineEnv) (req : Request) (cache : CacheState) :
    RunResult :=
  if strEndsWith req.path '/' then
    match env.browser with
    | none => ⟨.errorResponse "Error BROWSER" 500, cache, []⟩
    | some b => ⟨.redirect b, cache, []⟩
  else
    let fmt := outFormat req.params.format req.accept
    let hs := baseHeaders req fmt
    match req.params.x, req.params.y, req.params.w, req.params.h with
    | some x, some y, some w, some h => cropPath env req.path hs fmt x y w h cache
    | _, _, _, _ => fullImage env req.path hs fmt cache


/-- The per-key cache-entry state: absent, placeholder held by a producer,
or a cached value. -/
inductive KeyState (V : Type) where
  | empty
  | inflight
  | ready (v : V)
  deriving DecidableEq


/-- One request task's progress through the cache protocol. -/
inductive TaskSt (V : Type) where
  | pending
  | producing
  | waiting
  | done (v : V)
  deriving DecidableEq


structure CTask (V : Type) where
  path : String
  st : TaskSt V
  deriving DecidableEq


/-- The shared state: all in-flight tasks plus the process-wide cache. -/
structure Sys (V : Type) where
  tasks : List (CTask V)
  cache : String → KeyState V


def updTask {V : Type} (s : Sys V) (i : Nat) (t : CTask V) : Sys V :=
  { s with tasks := s.tasks.set i t }


def updCache {V : Type} (s : Sys V) (p : String) (k : KeyState V) : Sys V :=
  { s with cache := fun q => if q == p then k else s.cache q }


inductive CLabel where
  | startProduce (i : Nat)
  | attach (i : Nat)
  | hitStep (i : Nat)
  | finish (i : Nat)
  | resume (i : Nat)
  deriving DecidableEq, Repr


/-- One interleaving step. `f` gives the value the (single) fetch+decode
produces for a path. -/
inductive CStep {V : Type} (f : String → V) : Sys V → CLabel → Sys V → Prop where
  | startProduce {s : Sys V} {i : Nat} {p : String} :
      s.tasks.get? i = some ⟨p, .pending⟩ → s.cache p = .empty →
      CStep f s (.startProduce i)
        (updCache (updTask s i ⟨p, .producing⟩) p .inflight)
  | attach {s : Sys V} {i : Nat} {p : String} :
      s.tasks.get? i = some ⟨p, .pending⟩ → s.cache p = .inflight →
      CStep f s (.attach i) (updTask s i ⟨p, .waiting⟩)
  | hitStep {s : Sys V} {i : Nat} {p : String} {v : V} :
      s.tasks.get? i = some ⟨p, .pending⟩ → s.cache p = .ready v →
      CStep f s (.hitStep i) (updTask s i ⟨p, .done v⟩)
  | finish {s : Sys V} {i : Nat} {p : String} :
      s.tasks.get? i = some ⟨p, .producing⟩ →
      CStep f s (.finish i)
        (updCache (updTask s i ⟨p, .done (f p)⟩) p (.ready (f p)))
  | resume {s : Sys V} {i : Nat} {p : String} {v : V} :
      s.tasks.get? i = some ⟨p, .waiting⟩ → s.cache p = .ready v →
      CStep f s (.resume i) (updTask s i ⟨p, .done v⟩)


/-- A finite interleaved execution with its trace of labels. -/
inductive Exec {V : Type} (f : String → V) : Sys V → List CLabel → Sys V → Prop where
  | nil {s : Sys V} : Exec f s [] s
  | cons {s t u : Sys V} {l : CLabel} {tr : List CLabel} :
      CStep f s l t → Exec f t tr u → Exec f s (l :: tr) u


/-- Each `startProduce` step is one upstream fetch + decode (lib.rs 113). -/
def isStart : CLabel → Bool
  | .startProduce _ => true
  | _ => false


def fetchCount (tr : List CLabel) : Nat := tr.countP isStart


def isProducing {V : Type} : TaskSt V → Bool
  | .producing => true
  | _ => false


def isDoneSt {V : Type} : TaskSt V → Bool
  | .done _ => true
  | _ => false


/-- N pending tasks, all for the same path, cache entirely empty. -/
def initSame (V : Type) (n : Nat) (p : String) : Sys V :=
  ⟨List.replicate n ⟨p, .pending⟩, fun _ => .empty⟩


/-- Zero when the key is absent, one once a producer has claimed it (the entry
never returns to absent in the success-path protocol). -/
def cacheInd {V : Type} : KeyState V → Nat
  | .empty => 0
  | .inflight => 1
  | .ready _ => 1


/-- Single-flight invariant for key `p`: every task targets `p`; any task
past `pending` implies the entry has been claimed; the cached and delivered
values are the producer's fetch result. -/
structure SFInv {V : Type} (f : String → V) (p : String) (s : Sys V) : Prop where
  paths : ∀ t ∈ s.tasks, t.path = p
  nonpend : ∀ t ∈ s.tasks, t.st ≠ .pending → s.cache p ≠ .empty
  readyVal : ∀ v, s.cache p = .ready v → v = f p
  doneVal : ∀ t ∈ s.tasks, ∀ v, t.st = .done v → v = f p


def c2f : String → Nat := fun _ => 7


def c2s0 : Sys Nat := initSame Nat 2 "k"


def c2s1 : Sys Nat := updCache (updTask c2s0 0 ⟨"k", .producing⟩) "k" .inflight


def c2s2 : Sys Nat := updTask c2s1 1 ⟨"k", .waiting⟩


def c2s3 : Sys Nat := updCache (updTask c2s2 0 ⟨"k", .done 7⟩) "k" (.ready 7)


def c2s4 : Sys Nat := updTask c2s3 1 ⟨"k", .done 7⟩


def c3f : String → Nat := fun _ => 0


def pathOf (i : Nat) : String := ⟨List.replicate i 'a'⟩


/-- n pending requests for n pairwise-distinct paths, empty cache. -/
def initDistinct (n : Nat) : Sys Nat :=
  ⟨(List.range n).map (fun i => ⟨pathOf i, .pending⟩), fun _ => .empty⟩


/-- The state change performed by `startProduce` for task `i`. -/
def admitTask (s : Sys Nat) (i : Nat) : Sys Nat :=
  updCache (updTask s i ⟨pathOf i, .producing⟩) (pathOf i) .inflight


/-- The state after the first `k` of `n` concurrent requests have entered
the heavy path. -/
def c3State (n : Nat) : Nat → Sys Nat
  | 0 => initDistinct n
  | k + 1 => admitTask (c3State n k) k


def c3Labels (k : Nat) : List CLabel := (List.range k).map CLabel.startProduce


def producingCount (s : Sys Nat) : Nat :=
  s.tasks.countP (fun t => isProducing t.st)


def possibleStatuses : List (Option Nat) :=
  [some 200, some 302, some 304, some 500, none]


def bmp100 : Bitmap := ⟨100, 100, fun _ _ => 0⟩


def upstream200 : UpstreamResponse :=
  ⟨200, fun n => if n == "etag" then some "E1" else none, [7]⟩


def envOk : PipelineEnv :=
  ⟨fun _ => upstream200, fun _ => .ok bmp100, fun _ _ => .ok [9, 9], some "b"⟩


def env500 : PipelineEnv :=
  ⟨fun _ => ⟨503, fun _ => none, []⟩, fun _ => .ok bmp100,
    fun _ _ => .ok [9], none⟩


def env304 : PipelineEnv :=
  ⟨fun _ => ⟨304, fun _ => none, []⟩, fun _ => .ok bmp100,
    fun _ _ => .ok [9], none⟩


/-- A full-image (no-crop) request. -/
def c4req : Request := ⟨"/sheet.png", none, none, ⟨none, none, none, none, none⟩⟩


def isCacheOp : Effect → Bool
  | .cacheLookup _ _ => true
  | .cacheInsert _ => true
  | _ => false


/-- The spec's crop example: x=10, y=20, w=5, h=5 against a 100×100
source. -/
def c8req : Request :=
  ⟨"/sheet.png", none, none, ⟨none, some 10, some 20, some 5, some 5⟩⟩


def c1cache : CacheState := [("/sheet.png", bmp100)]


/-- The spec's failing example: `w=200` against a 100×100 source. -/
def c1req : Request :=
  ⟨"/sheet.png", none, none, ⟨none, some 10, some 20, some 200, some 5⟩⟩


/-! Theorems. -/

theorem acceptLoop_eq_findSome (cs : List (List Char)) :
    acceptLoop cs = (cs.map stripAcceptParams).findSome? ImageFormat.fromMimeType := by
  induction cs with
  | nil => rfl
  | cons v rest ih =>
    simp only [acceptLoop, List.map_cons, List.findSome?_cons]
    cases ImageFormat.fromMimeType (stripAcceptParams v) <;> simp [ih]


theorem updCache_cache_self {V : Type} (s : Sys V) (p : String) (k : KeyState V) :
    (updCache s p k).cache p = k := by
  simp [updCache]


theorem updTask_cache {V : Type} (s : Sys V) (i : Nat) (t : CTask V) :
    (updTask s i t).cache = s.cache := rfl


theorem cstep_inv {V : Type} {f : String → V} {p : String} {s t : Sys V}
    {l : CLabel} (hs : CStep f s l t) (hi : SFInv f p s) :
    SFInv f p t ∧
      cacheInd (s.cache p) + (if isStart l then 1 else 0) = cacheInd (t.cache p) ∧
      t.tasks.length = s.tasks.length := by
  cases hs with
  | @startProduce i q hget hcache =>
    have hq : q = p := hi.paths _ (List.get?_mem hget)
    subst hq
    refine ⟨⟨?_, ?_, ?_, ?_⟩, ?_, ?_⟩
    · intro t' ht'
      rcases List.mem_or_eq_of_mem_set ht' with h | h
      · exact hi.paths _ h
      · simp [h]
    · intro t' ht' hst
      simp [updCache_cache_self]
    · intro v hv
      rw [updCache_cache_self] at hv
      exact absurd hv (by simp)
    · intro t' ht' v hv
      rcases List.mem_or_eq_of_mem_set ht' with h | h
      · exact hi.doneVal _ h v hv
      · subst h; simp at hv
    · rw [hcache, updCache_cache_self]; rfl
    · simp [updCache, updTask]
  | @attach i q hget hcache =>
    have hq : q = p := hi.paths _ (List.get?_mem hget)
    subst hq
    refine ⟨⟨?_, ?_, ?_, ?_⟩, ?_, ?_⟩
    · intro t' ht'
      rcases List.mem_or_eq_of_mem_set ht' with h | h
      · exact hi.paths _ h
      · simp [h]
    · intro t' ht' hst
      rw [updTask_cache, hcache]; simp
    · intro v hv
      rw [updTask_cache] at hv
      exact hi.readyVal v hv
    · intro t' ht' v hv
      rcases List.mem_or_eq_of_mem_set ht' with h | h
      · exact hi.doneVal _ h v hv
      · subst h; simp at hv
    · rw [updTask_cache]; simp [isStart]
    · simp [updTask]
  | @hitStep i q v₀ hget hcache =>
    have hq : q = p := hi.paths _ (List.get?_mem hget)
    subst hq
    have hv₀ := hi.readyVal v₀ hcache
    refine ⟨⟨?_, ?_, ?_, ?_⟩, ?_, ?_⟩
    · intro t' ht'
      rcases List.mem_or_eq_of_mem_set ht' with h | h
      · exact hi.paths _ h
      · simp [h]
    · intro t' ht' hst
      rw [updTask_cache, hcache]; simp
    · intro v hv
      rw [updTask_cache] at hv
      exact hi.readyVal v hv
    · intro t' ht' v hv
      rcases List.mem_or_eq_of_mem_set ht' with h | h
      · exact hi.doneVal _ h v hv
      · subst h
        simp only [TaskSt.done.injEq] at hv
        exact hv ▸ hv₀
    · rw [updTask_cache]; simp [isStart]
    · simp [updTask]
  | @finish i q hget =>
    have hq : q = p := hi.paths _ (List.get?_mem hget)
    subst hq
    have hne := hi.nonpend _ (List.get?_mem hget) (by simp)
    refine ⟨⟨?_, ?_, ?_, ?_⟩, ?_, ?_⟩
    · intro t' ht'
      rcases List.mem_or_eq_of_mem_set ht' with h | h
      · exact hi.paths _ h
      · simp [h]
    · intro t' ht' hst
      simp [updCache_cache_self]
    · intro v hv
      rw [updCache_cache_self] at hv
      simp only [KeyState.ready.injEq] at hv
      exact hv.symm
    · intro t' ht' v hv
      rcases List.mem_or_eq_of_mem_set ht' with h | h
      · exact hi.doneVal _ h v hv
      · subst h
        simp only [TaskSt.done.injEq] at hv
        exact hv.symm
    · rw [updCache_cache_self]
      cases hk : s.cache q with
      | empty => exact absurd hk hne
      | inflight => simp [cacheInd, isStart]
      | ready v => simp [cacheInd, isStart]
    · simp [updCache, updTask]
  | @resume i q v₀ hget hcache =>
    have hq : q = p := hi.paths _ (List.get?_mem hget)
    subst hq
    have hv₀ := hi.readyVal v₀ hcache
    refine ⟨⟨?_, ?_, ?_, ?_⟩, ?_, ?_⟩
    · intro t' ht'
      rcases List.mem_or_eq_of_mem_set ht' with h | h
      · exact hi.paths _ h
      · simp [h]
    · intro t' ht' hst
      rw [updTask_cache, hcache]; simp
    · intro v hv
      rw [updTask_cache] at hv
      exact hi.readyVal v hv
    · intro t' ht' v hv
      rcases List.mem_or_eq_of_mem_set ht' with h | h
      · exact hi.doneVal _ h v hv
      · subst h
        simp only [TaskSt.done.injEq] at hv
        exact hv ▸ hv₀
    · rw [updTask_cache]; simp [isStart]
    · simp [updTask]


theorem exec_inv {V : Type} {f : String → V} {p : String} {s s' : Sys V}
    {tr : List CLabel} (hx : Exec f s tr s') (hi : SFInv f p s) :
    SFInv f p s' ∧
      cacheInd (s.cache p) + fetchCount tr = cacheInd (s'.cache p) ∧
      s'.tasks.length = s.tasks.length := by
  induction hx with
  | nil => exact ⟨hi, by simp [fetchCount], rfl⟩
  | @cons s t u l tr hstep hexec ih =>
    obtain ⟨hi', hind, hlen⟩ := cstep_inv hstep hi
    obtain ⟨hi'', hind', hlen'⟩ := ih hi'
    refine ⟨hi'', ?_, hlen'.trans hlen⟩
    have : fetchCount (l :: tr) = (if isStart l then 1 else 0) + fetchCount tr := by
      simp [fetchCount, List.countP_cons]
      cases hl : isStart l <;> simp [Nat.add_comm]
    omega


/-- C2: for every source path with no cached bitmap entry, when N
concurrent requests reference that path, exactly one caller becomes the
producer and exactly one upstream fetch plus decode is performed
(`fetchCount tr = 1`); every other concurrent caller for the same key
suspends and receives the producer's result, so all N requests observe the
result of that single fetch (`t.st = .done (f p)` for every task). -/
theorem c2_single_flight (V : Type) (f : String → V) (n : Nat) (p : String)
    (tr : List CLabel) (s : Sys V) (hn : 0 < n)
    (hx : Exec f (initSame V n p) tr s)
    (hdone : ∀ t ∈ s.tasks, isDoneSt t.st = true) :
    fetchCount tr = 1 ∧ ∀ t ∈ s.tasks, t.st = TaskSt.done (f p) := by
  have hinv : SFInv f p (initSame V n p) := by
    refine ⟨?_, ?_, ?_, ?_⟩
    · intro t ht
      have h := List.eq_of_mem_replicate ht
      simp [h]
    · intro t ht hst
      have h := List.eq_of_mem_replicate ht
      subst h; simp at hst
    · intro v hv
      exact absurd hv (by simp [initSame])
    · intro t ht v hv
      have h := List.eq_of_mem_replicate ht
      subst h; simp at hv
  obtain ⟨hi, hcount, hlen⟩ := exec_inv hx hinv
  have hlen' : s.tasks.length = n := by
    simpa [initSame] using hlen
  obtain ⟨t0, ht0⟩ : ∃ t, t ∈ s.tasks :=
    List.exists_mem_of_ne_nil _ (List.length_pos.mp (by omega))
  have hne : s.cache p ≠ KeyState.empty := by
    refine hi.nonpend t0 ht0 ?_
    have hd := hdone t0 ht0
    cases h : t0.st with
    | pending => rw [h] at hd; simp [isDoneSt] at hd
    | producing => simp
    | waiting => simp
    | done v => simp
  have hone : cacheInd (s.cache p) = 1 := by
    cases h : s.cache p with
    | empty => exact absurd h hne
    | inflight => rfl
    | ready v => rfl
  have hzero : cacheInd ((initSame V n p).cache p) = 0 := rfl
  refine ⟨by omega, ?_⟩
  intro t ht
  have hd := hdone t ht
  cases h : t.st with
  | pending => rw [h] at hd; simp [isDoneSt] at hd
  | producing => rw [h] at hd; simp [isDoneSt] at hd
  | waiting => rw [h] at hd; simp [isDoneSt] at hd
  | done v =>
    have hv := hi.doneVal t ht v h
    rw [hv]


theorem c2_single_flight_witness :
    fetchCount [CLabel.startProduce 0, CLabel.attach 1, CLabel.finish 0,
      CLabel.resume 1] = 1 ∧
      ∀ t ∈ c2s4.tasks, t.st = TaskSt.done (c2f "k") :=
  c2_single_flight Nat c2f 2 "k" _ c2s4 (by decide)
    (Exec.cons (@CStep.startProduce Nat c2f c2s0 0 "k" (by decide) (by decide))
      (Exec.cons (@CStep.attach Nat c2f c2s1 1 "k" (by decide) (by decide))
        (Exec.cons (@CStep.finish Nat c2f c2s2 0 "k" (by decide))
          (Exec.cons (@CStep.resume Nat c2f c2s3 1 "k" 7 (by decide) (by decide))
            Exec.nil))))
    (by decide)


theorem pathOf_inj {a b : Nat} (h : pathOf a = pathOf b) : a = b := by
  have h2 := congrArg String.data h
  simp only [pathOf] at h2
  have h3 := congrArg List.length h2
  simpa using h3


theorem exec_snoc {V : Type} {f : String → V} {s t u : Sys V}
    {tr : List CLabel} {l : CLabel} (hx : Exec f s tr t) (hs : CStep f t l u) :
    Exec f s (tr ++ [l]) u := by
  induction hx with
  | nil => exact .cons hs .nil
  | cons h1 _ ih =>
    rw [List.cons_append]
    exact .cons h1 (ih hs)


theorem c3State_length (n k : Nat) : (c3State n k).tasks.length = n := by
  induction k with
  | zero => simp [c3State, initDistinct]
  | succ k ih => simpa [c3State, admitTask, updCache, updTask] using ih


theorem c3State_get_ge (n : Nat) : ∀ k j, k ≤ j → j < n →
    (c3State n k).tasks.get? j = some ⟨pathOf j, .pending⟩ := by
  intro k
  induction k with
  | zero =>
    intro j _ hj
    show ((List.range n).map (fun i => (⟨pathOf i, .pending⟩ : CTask Nat))).get? j = _
    rw [List.get?_map, List.get?_range hj]
    rfl
  | succ k ih =>
    intro j hk hj
    have hne : k ≠ j := by omega
    show ((c3State n k).tasks.set k ⟨pathOf k, .producing⟩).get? j = _
    rw [List.get?_set_ne _ _ hne]
    exact ih j (by omega) hj


theorem c3State_cache_ge (n : Nat) : ∀ k j, k ≤ j →
    (c3State n k).cache (pathOf j) = KeyState.empty := by
  intro k
  induction k with
  | zero => intro j _; rfl
  | succ k ih =>
    intro j hk
    have hne : pathOf j ≠ pathOf k := by
      intro h
      have := pathOf_inj h
      omega
    have hbeq : (pathOf j == pathOf k) = false := by
      rw [beq_eq_false_iff_ne]
      exact hne
    show (if pathOf j == pathOf k then KeyState.inflight
      else (c3State n k).cache (pathOf j)) = KeyState.empty
    rw [hbeq]
    simpa using ih j (by omega)


theorem c3State_get_lt (n : Nat) : ∀ k j, j < k → k ≤ n →
    (c3State n k).tasks.get? j = some ⟨pathOf j, .producing⟩ := by
  intro k
  induction k with
  | zero => intro j hj _; omega
  | succ k ih =>
    intro j hj hkn
    show ((c3State n k).tasks.set k ⟨pathOf k, .producing⟩).get? j = _
    by_cases h : j = k
    · subst h
      rw [List.get?_set_eq_of_lt]
      rw [c3State_length]
      omega
    · rw [List.get?_set_ne _ _ (fun hh => h hh.symm)]
      exact ih j (by omega) (by omega)


theorem c3_exec (n : Nat) : ∀ k, k ≤ n →
    Exec c3f (initDistinct n) (c3Labels k) (c3State n k) := by
  intro k
  induction k with
  | zero =>
    intro _
    rw [c3Labels]
    simp only [List.range_zero, List.map_nil]
    exact .nil
  | succ k ih =>
    intro hkn
    have hstep : CStep c3f (c3State n k) (.startProduce k) (c3State n (k + 1)) :=
      @CStep.startProduce Nat c3f (c3State n k) k (pathOf k)
        (c3State_get_ge n k k (le_refl k) (by omega))
        (c3State_cache_ge n k k (le_refl k))
    have hx := exec_snoc (ih (by omega)) hstep
    rw [c3Labels, List.range_succ, List.map_append]
    exact hx


theorem get_image_cases (env : PipelineEnv) (path : String) (hs : HeaderMap) :
    (∃ m, (get_image env path hs).res = .fail m 500) ∨
    (∃ r, (get_image env path hs).res = .passthrough r ∧ r.status = 304) ∨
    (∃ img hs', (get_image env path hs).res = .ok img hs') := by
  unfold get_image
  split
  · exact .inl ⟨_, rfl⟩
  · split
    · next hbeq =>
      refine .inr (.inl ⟨_, rfl, ?_⟩)
      simpa using hbeq
    · split
      · exact .inl ⟨_, rfl⟩
      · exact .inl ⟨_, rfl⟩
      · exact .inr (.inr ⟨_, _, rfl⟩)


theorem statusOf_cropEncode (env : PipelineEnv) (hs : HeaderMap)
    (fmt : ImageFormat) (img : Bitmap) (x y w h : Nat) (cache : CacheState)
    (effs : List Effect) :
    statusOf (cropEncode env hs fmt img x y w h cache effs).outcome ∈
      possibleStatuses := by
  unfold cropEncode
  split
  · split <;> simp [statusOf, possibleStatuses]
  · simp [statusOf, possibleStatuses]


theorem statusOf_cropPath (env : PipelineEnv) (path : String) (hs : HeaderMap)
    (fmt : ImageFormat) (x y w h : Nat) (cache : CacheState) :
    statusOf (cropPath env path hs fmt x y w h cache).outcome ∈
      possibleStatuses := by
  unfold cropPath
  split
  · exact statusOf_cropEncode ..
  · rcases get_image_cases env path hs with ⟨m, hm⟩ | ⟨r, hr, hr304⟩ | ⟨img, hs', hok⟩
    · rw [hm]
      simp [statusOf, possibleStatuses]
    · rw [hr]
      simp [statusOf, possibleStatuses, hr304]
    · rw [hok]
      exact statusOf_cropEncode ..


theorem statusOf_fullImage (env : PipelineEnv) (path : String)
    (hs : HeaderMap) (fmt : ImageFormat) (cache : CacheState) :
    statusOf (fullImage env path hs fmt cache).outcome ∈ possibleStatuses := by
  unfold fullImage
  rcases get_image_cases env path hs with ⟨m, hm⟩ | ⟨r, hr, hr304⟩ | ⟨img, hs', hok⟩
  · rw [hm]
    simp [statusOf, possibleStatuses]
  · rw [hr]
    simp [statusOf, possibleStatuses, hr304]
  · rw [hok]
    rcases henc : env.encode img fmt with e | bytes <;>
      simp [henc, statusOf, possibleStatuses]


theorem statusOf_processImage (env : PipelineEnv) (req : Request)
    (cache : CacheState) :
    statusOf (processImage env req cache).outcome ∈ possibleStatuses := by
  unfold processImage
  split
  · cases env.browser <;> simp [statusOf, possibleStatuses]
  · split
    · exact statusOf_cropPath ..
    · exact statusOf_fullImage ..


/-- C3 counterexample: with 8 heavy-path requests already in flight
(the spec's example capacity), the 9th concurrent request is admitted into
the heavy path rather than rejected with a 429 — lib.rs contains no
semaphore and no 429 path. -/
theorem c3_no_limiter_counterexample :
    producingCount (c3State 9 8) = 8 ∧
      CStep c3f (c3State 9 8) (CLabel.startProduce 8) (c3State 9 9) ∧
      producingCount (c3State 9 9) = 9 :=
  ⟨by decide,
   @CStep.startProduce Nat c3f (c3State 9 8) 8 (pathOf 8) (by decide) (by decide),
   by decide⟩


/-- C3 amended: there is no concurrency limiter. The handler only ever
produces statuses 200, 302, 304 or 500 (or panics) — never 429 — and for
every n there is an execution in which all n concurrent heavy-path requests
are in flight simultaneously: admission is gated by nothing. -/
theorem c3_no_limiter :
    (∀ env req cache,
      statusOf (processImage env req cache).outcome ∈ possibleStatuses) ∧
    (∀ n, Exec c3f (initDistinct n) (c3Labels n) (c3State n n) ∧
      ∀ t ∈ (c3State n n).tasks, t.st = TaskSt.producing) := by
  refine ⟨statusOf_processImage, ?_⟩
  intro n
  refine ⟨c3_exec n n (le_refl n), ?_⟩
  intro t ht
  obtain ⟨j, hget⟩ := List.mem_iff_get?.mp ht
  have hj : j < n := by
    obtain ⟨hlt, _⟩ := List.get?_eq_some.mp hget
    rwa [c3State_length] at hlt
  have hval := c3State_get_lt n n j hj (le_refl n)
  rw [hval] at hget
  have := Option.some.inj hget
  rw [← this]


theorem c3_no_limiter_witness :
    statusOf (processImage env304 c8req []).outcome ∈ possibleStatuses ∧
      (Exec c3f (initDistinct 2) (c3Labels 2) (c3State 2 2) ∧
        ∀ t ∈ (c3State 2 2).tasks, t.st = TaskSt.producing) :=
  ⟨c3_no_limiter.1 env304 c8req [], c3_no_limiter.2 2⟩


/-- C6: format negotiation is a total function of the optional explicit
format string and optional Accept header, and equals the spec's algorithm:
a known explicit extension wins; otherwise the Accept header is split on
`,`, each candidate's `;`-suffix stripped and whitespace trimmed, and the
first candidate matching a known MIME type wins with quality weights
ignored; PNG when nothing matches. In particular the spec's example
`Accept: image/webp;q=0.5,image/png;q=0.9` with no explicit format yields
WebP. -/
theorem c6_negotiation :
    (∀ f a, outFormat f a = specNegotiate f a) ∧
      outFormat none (some "image/webp;q=0.5,image/png;q=0.9") =
        ImageFormat.WebP := by
  constructor
  · intro f a
    unfold outFormat specNegotiate
    cases f.bind ImageFormat.fromExtension with
    | some fmt => rfl
    | none =>
      cases a with
      | none => rfl
      | some s =>
        show (acceptLoop (splitChar ',' s.data)).getD ImageFormat.Png = _
        rw [acceptLoop_eq_findSome]
  · rfl


theorem asciiLower_upstreamNames : ∀ n ∈ upstreamHeaderNames, asciiLower n = n := by
  decide


/-- Evaluation of the header-copy fold at each copied name. -/
theorem copyUpstream_eval (resp : UpstreamResponse) (hs : HeaderMap)
    (n : String) (hn : n ∈ upstreamHeaderNames) :
    copyUpstreamHeaders resp upstreamHeaderNames hs n =
      match resp.headers n with
      | some v => some v
      | none => hs n := by
  fin_cases hn <;>
    cases hlm : resp.headers "last-modified" <;>
    cases het : resp.headers "etag" <;>
    cases hcc : resp.headers "cache-control" <;>
    cases hex : resp.headers "expires" <;>
    cases hdt : resp.headers "date" <;>
      simp +decide [upstreamHeaderNames, copyUpstreamHeaders, HeaderMap.set,
        hlm, het, hcc, hex, hdt]


/-- C5: for every upstream fetch — (a) origin status ≥ 400 fails with a
500 whose message names the upstream status; (b) origin status 304 is
passed straight through as the final response with no decode, crop or
encode performed; (c) otherwise the raw body bytes are decoded and
`last-modified`, `etag`, `cache-control`, `expires` and `date` are copied
from the upstream response when present. -/
theorem c5_upstream_contract (env : PipelineEnv) (path : String)
    (hs : HeaderMap) (fmt : ImageFormat) (cache : CacheState) :
    (400 ≤ (env.upstream path).status →
      (get_image env path hs).res = GetImageRes.fail
        (toString (env.upstream path).status ++ " error from upstream") 500) ∧
    ((env.upstream path).status = 304 →
      (get_image env path hs).res = GetImageRes.passthrough (env.upstream path) ∧
      (get_image env path hs).effs = [Effect.fetch path] ∧
      fullImage env path hs fmt cache =
        ⟨Outcome.passthrough (env.upstream path), cache, [Effect.fetch path]⟩) ∧
    (¬ 400 ≤ (env.upstream path).status → (env.upstream path).status ≠ 304 →
      ∀ img hs', (get_image env path hs).res = GetImageRes.ok img hs' →
        env.decode (env.upstream path).body = Except.ok img ∧
        ∀ n ∈ upstreamHeaderNames, HeaderMap.get hs' n =
          (match (env.upstream path).headers n with
           | some v => some v
           | none => HeaderMap.get hs n)) := by
  refine ⟨?_, ?_, ?_⟩
  · intro h400
    unfold get_image
    rw [if_pos h400]
  · intro h304
    have hnot400 : ¬ 400 ≤ (env.upstream path).status := by omega
    have hbeq : ((env.upstream path).status == 304) = true := by
      simp [h304]
    have hres : get_image env path hs =
        ⟨.passthrough (env.upstream path), [.fetch path]⟩ := by
      unfold get_image
      rw [if_neg hnot400, if_pos hbeq]
    refine ⟨by rw [hres], by rw [hres], ?_⟩
    unfold fullImage
    rw [hres]
  · intro hnot400 hne img hs' hok
    have hbeq : ((env.upstream path).status == 304) = false :=
      beq_eq_false_iff_ne.mpr hne
    unfold get_image at hok
    rw [if_neg hnot400, hbeq] at hok
    simp only [Bool.false_eq_true, if_false] at hok
    cases hdec : env.decode (env.upstream path).body with
    | error e =>
      cases e <;> rw [hdec] at hok <;> simp at hok
    | ok img₀ =>
      rw [hdec] at hok
      simp only [GetImageRes.ok.injEq] at hok
      obtain ⟨himg, hhs⟩ := hok
      subst himg
      refine ⟨rfl, ?_⟩
      intro n hn
      have hlow := asciiLower_upstreamNames n hn
      unfold HeaderMap.get
      rw [hlow, ← hhs, copyUpstream_eval _ _ _ hn]


theorem c5_upstream_contract_witness :
    (get_image env500 "p" HeaderMap.empty).res =
      GetImageRes.fail "503 error from upstream" 500 ∧
    (get_image env304 "p" HeaderMap.empty).res =
      GetImageRes.passthrough (env304.upstream "p") ∧
    HeaderMap.get (copyUpstreamHeaders (envOk.upstream "p") upstreamHeaderNames
      HeaderMap.empty) "etag" = some "E1" := by
  refine ⟨?_, ?_, ?_⟩
  · exact (c5_upstream_contract env500 "p" HeaderMap.empty .Png []).1 (by decide)
  · exact ((c5_upstream_contract env304 "p" HeaderMap.empty .Png []).2.1 rfl).1
  · have h := ((c5_upstream_contract envOk "p" HeaderMap.empty .Png []).2.2
      (by decide) (by decide)) bmp100
      (copyUpstreamHeaders (envOk.upstream "p") upstreamHeaderNames
        HeaderMap.empty) rfl
    exact (h.2 "etag" (by decide)).trans (by decide)


theorem processImage_cropEq (env : PipelineEnv) (req : Request)
    (cache : CacheState) (x y w h : Nat)
    (hslash : strEndsWith req.path '/' = false)
    (hx : req.params.x = some x) (hy : req.params.y = some y)
    (hw : req.params.w = some w) (hh : req.params.h = some h) :
    processImage env req cache =
      cropPath env req.path
        (baseHeaders req (outFormat req.params.format req.accept))
        (outFormat req.params.format req.accept) x y w h cache := by
  unfold processImage
  rw [hslash]
  simp only [Bool.false_eq_true, if_false]
  rw [hx, hy, hw, hh]


theorem processImage_fullEq (env : PipelineEnv) (req : Request)
    (cache : CacheState)
    (hslash : strEndsWith req.path '/' = false)
    (hmiss : req.params.x = none ∨ req.params.y = none ∨
      req.params.w = none ∨ req.params.h = none) :
    processImage env req cache =
      fullImage env req.path
        (baseHeaders req (outFormat req.params.format req.accept))
        (outFormat req.params.format req.accept) cache := by
  unfold processImage
  rw [hslash]
  simp only [Bool.false_eq_true, if_false]
  rcases hpx : req.params.x with _ | x <;>
    rcases hpy : req.params.y with _ | y <;>
      rcases hpw : req.params.w with _ | w <;>
        rcases hph : req.params.h with _ | h <;>
          first | rfl | simp_all


/-- Under a successful upstream response and decode, `get_image` returns
the decoded bitmap and the copied headers. -/
theorem get_image_ok (env : PipelineEnv) (path : String) (hs : HeaderMap)
    (img : Bitmap)
    (hst : ¬ 400 ≤ (env.upstream path).status)
    (h304 : (env.upstream path).status ≠ 304)
    (hdec : env.decode (env.upstream path).body = Except.ok img) :
    get_image env path hs =
      ⟨GetImageRes.ok img
        (copyUpstreamHeaders (env.upstream path) upstreamHeaderNames hs),
        [Effect.fetch path, Effect.decodeOp]⟩ := by
  unfold get_image
  rw [if_neg hst, beq_eq_false_iff_ne.mpr h304]
  simp only [Bool.false_eq_true, if_false]
  rw [hdec]


theorem get_image_effs (env : PipelineEnv) (path : String) (hs : HeaderMap) :
    (get_image env path hs).effs = [Effect.fetch path] ∨
      (get_image env path hs).effs = [Effect.fetch path, Effect.decodeOp] := by
  unfold get_image
  split
  · exact .inl rfl
  · split
    · exact .inl rfl
    · split <;> exact .inr rfl


/-- C9: the bitmap cache is touched only by requests carrying all four
crop parameters: a full-image (no-crop) request always invokes the
upstream fetch, performs no bitmap-cache lookup or insert, and leaves the
cache state unchanged — so repeated full-image requests each perform their
own fetch. -/
theorem c9_no_crop_bypasses_cache (env : PipelineEnv) (req : Request)
    (cache : CacheState)
    (hslash : strEndsWith req.path '/' = false)
    (hmiss : req.params.x = none ∨ req.params.y = none ∨
      req.params.w = none ∨ req.params.h = none) :
    Effect.fetch req.path ∈ (processImage env req cache).effects ∧
    (∀ e ∈ (processImage env req cache).effects, isCacheOp e = false) ∧
    (processImage env req cache).cache = cache := by
  rw [processImage_fullEq env req cache hslash hmiss]
  generalize baseHeaders req (outFormat req.params.format req.accept) = hs
  generalize outFormat req.params.format req.accept = fmt
  unfold fullImage
  rcases get_image_cases env req.path hs with ⟨m, hm⟩ | ⟨r, hr, _⟩ |
      ⟨img, hs', hok⟩ <;>
    rcases get_image_effs env req.path hs with he | he <;>
    first
      | (rw [hm, he]; exact ⟨by simp, by simp [isCacheOp], rfl⟩)
      | (rw [hr, he]; exact ⟨by simp, by simp [isCacheOp], rfl⟩)
      | (rw [hok, he]
         rcases henc : env.encode img fmt with e₀ | bytes <;>
           exact ⟨by simp [henc], by simp [henc, isCacheOp], by simp [henc]⟩)


theorem c9_witness :
    Effect.fetch "/sheet.png" ∈ (processImage envOk c4req []).effects ∧
    (∀ e ∈ (processImage envOk c4req []).effects, isCacheOp e = false) ∧
    (processImage envOk c4req []).cache = [] :=
  c9_no_crop_bypasses_cache envOk c4req [] (by decide) (Or.inl rfl)


/-- C7: crop-parameter presence is all-or-nothing — with any of
`x, y, w, h` absent the request is processed as a full-image request, and
the bitmap handed to the encoder is the decoded source bitmap itself, so
the output dimensions equal the source image's dimensions. -/
theorem c7_partial_params_full_image (env : PipelineEnv) (req : Request)
    (cache : CacheState) (img : Bitmap)
    (hslash : strEndsWith req.path '/' = false)
    (hmiss : req.params.x = none ∨ req.params.y = none ∨
      req.params.w = none ∨ req.params.h = none)
    (hst : ¬ 400 ≤ (env.upstream req.path).status)
    (h304 : (env.upstream req.path).status ≠ 304)
    (hdec : env.decode (env.upstream req.path).body = Except.ok img) :
    Effect.encodeOp img.width img.height
        (outFormat req.params.format req.accept) ∈
      (processImage env req cache).effects ∧
    ∀ w h f, Effect.encodeOp w h f ∈ (processImage env req cache).effects →
      w = img.width ∧ h = img.height := by
  rw [processImage_fullEq env req cache hslash hmiss]
  generalize hfmt : outFormat req.params.format req.accept = fmt
  unfold fullImage
  rw [get_image_ok env req.path _ img hst h304 hdec]
  rcases henc : env.encode img fmt with e₀ | bytes <;>
    (refine ⟨by simp [henc], ?_⟩
     intro w h f hmem
     simp [henc] at hmem
     exact ⟨hmem.1, hmem.2.1⟩)


theorem c7_witness :
    Effect.encodeOp bmp100.width bmp100.height
        (outFormat c4req.params.format c4req.accept) ∈
      (processImage envOk c4req []).effects ∧
    ∀ w h f, Effect.encodeOp w h f ∈ (processImage envOk c4req []).effects →
      w = bmp100.width ∧ h = bmp100.height :=
  c7_partial_params_full_image envOk c4req [] bmp100 (by decide) (Or.inl rfl)
    (by decide) (by decide) rfl


theorem cropPath_hit (env : PipelineEnv) (path : String) (hs : HeaderMap)
    (fmt : ImageFormat) (x y w h : Nat) (cache : CacheState) (img : Bitmap)
    (hhit : lookupCache cache path = some img) :
    cropPath env path hs fmt x y w h cache =
      cropEncode env hs fmt img x y w h cache [Effect.cacheLookup path true] := by
  unfold cropPath
  rw [hhit]


theorem cropPath_miss_ok (env : PipelineEnv) (path : String) (hs : HeaderMap)
    (fmt : ImageFormat) (x y w h : Nat) (cache : CacheState) (img : Bitmap)
    (hmiss : lookupCache cache path = none)
    (hst : ¬ 400 ≤ (env.upstream path).status)
    (h304 : (env.upstream path).status ≠ 304)
    (hdec : env.decode (env.upstream path).body = Except.ok img) :
    cropPath env path hs fmt x y w h cache =
      cropEncode env
        (copyUpstreamHeaders (env.upstream path) upstreamHeaderNames hs)
        fmt img x y w h (insertCache cache path img)
        [Effect.cacheLookup path false, Effect.fetch path, Effect.decodeOp,
          Effect.cacheInsert path] := by
  unfold cropPath
  rw [hmiss, get_image_ok env path hs img hst h304 hdec]
  rfl


theorem cropEncode_panic (env : PipelineEnv) (hs : HeaderMap)
    (fmt : ImageFormat) (img : Bitmap) (x y w h : Nat) (cache : CacheState)
    (effs : List Effect)
    (hbad : ¬ (x + w ≤ img.width ∧ y + h ≤ img.height)) :
    cropEncode env hs fmt img x y w h cache effs =
      ⟨Outcome.panic, cache, effs⟩ := by
  unfold cropEncode
  rw [if_neg hbad]


theorem cropEncode_ok (env : PipelineEnv) (hs : HeaderMap) (fmt : ImageFormat)
    (img : Bitmap) (x y w h : Nat) (cache : CacheState) (effs : List Effect)
    (bytes : List Nat)
    (hb : x + w ≤ img.width ∧ y + h ≤ img.height)
    (henc : env.encode (img.view x y w h) fmt = Except.ok bytes) :
    cropEncode env hs fmt img x y w h cache effs =
      ⟨Outcome.ok hs bytes, cache, effs ++ [Effect.encodeOp w h fmt]⟩ := by
  unfold cropEncode
  rw [if_pos hb, henc]
  rfl


theorem cropEncode_effects (env : PipelineEnv) (hs : HeaderMap)
    (fmt : ImageFormat) (img : Bitmap) (x y w h : Nat) (cache : CacheState)
    (effs : List Effect)
    (hb : x + w ≤ img.width ∧ y + h ≤ img.height) :
    (cropEncode env hs fmt img x y w h cache effs).effects =
      effs ++ [Effect.encodeOp w h fmt] := by
  unfold cropEncode
  rw [if_pos hb]
  rcases env.encode (img.view x y w h) fmt with e | b <;> rfl


/-- C8: for every source bitmap and crop rectangle satisfying
`x+w ≤ width` and `y+h ≤ height`, the bitmap produced by the crop step —
the one subsequently encoded — has dimensions exactly (w, h); stated for
both resolution modes of the source (bitmap-cache hit and miss). -/
theorem c8_crop_dims (env : PipelineEnv) (req : Request) (cache : CacheState)
    (img : Bitmap) (x y w h : Nat)
    (hslash : strEndsWith req.path '/' = false)
    (hx : req.params.x = some x) (hy : req.params.y = some y)
    (hw : req.params.w = some w) (hh : req.params.h = some h)
    (hb1 : x + w ≤ img.width) (hb2 : y + h ≤ img.height) :
    (img.view x y w h).width = w ∧ (img.view x y w h).height = h ∧
    (lookupCache cache req.path = some img →
      (processImage env req cache).effects =
        [Effect.cacheLookup req.path true,
         Effect.encodeOp w h (outFormat req.params.format req.accept)]) ∧
    (lookupCache cache req.path = none →
      ¬ 400 ≤ (env.upstream req.path).status →
      (env.upstream req.path).status ≠ 304 →
      env.decode (env.upstream req.path).body = Except.ok img →
      (processImage env req cache).effects =
        [Effect.cacheLookup req.path false, Effect.fetch req.path,
         Effect.decodeOp, Effect.cacheInsert req.path,
         Effect.encodeOp w h (outFormat req.params.format req.accept)]) := by
  refine ⟨rfl, rfl, ?_, ?_⟩
  · intro hhit
    rw [processImage_cropEq env req cache x y w h hslash hx hy hw hh,
      cropPath_hit env req.path _ _ x y w h cache img hhit,
      cropEncode_effects env _ _ img x y w h cache _ ⟨hb1, hb2⟩]
    rfl
  · intro hmiss hst h304 hdec
    rw [processImage_cropEq env req cache x y w h hslash hx hy hw hh,
      cropPath_miss_ok env req.path _ _ x y w h cache img hmiss hst h304 hdec,
      cropEncode_effects env _ _ img x y w h _ _ ⟨hb1, hb2⟩]
    rfl


theorem c8_crop_dims_witness :
    (bmp100.view 10 20 5 5).width = 5 ∧ (bmp100.view 10 20 5 5).height = 5 ∧
    (processImage envOk c8req c1cache).effects =
      [Effect.cacheLookup "/sheet.png" true,
       Effect.encodeOp 5 5 (outFormat c8req.params.format c8req.accept)] := by
  have h := c8_crop_dims envOk c8req c1cache bmp100 10 20 5 5 rfl rfl rfl rfl
    rfl (by decide) (by decide)
  exact ⟨h.1, h.2.1, h.2.2.1 rfl⟩


/-- C1 amended: for a crop rectangle not fully contained in the
resolved source bitmap, the bounds assertion inside
`GenericImageView::view` fails and the request panics: the code constructs
no `InvalidCropBounds`-style 500 error response, and no output bytes are
emitted (no encode is attempted). Stated for both resolution modes; in the
miss case the decoded bitmap is inserted into the cache before the panic. -/
theorem c1_oob_crop_panics (env : PipelineEnv) (req : Request)
    (cache : CacheState) (img : Bitmap) (x y w h : Nat)
    (hslash : strEndsWith req.path '/' = false)
    (hx : req.params.x = some x) (hy : req.params.y = some y)
    (hw : req.params.w = some w) (hh : req.params.h = some h)
    (hbad : ¬ (x + w ≤ img.width ∧ y + h ≤ img.height)) :
    (lookupCache cache req.path = some img →
      processImage env req cache =
        ⟨Outcome.panic, cache, [Effect.cacheLookup req.path true]⟩) ∧
    (lookupCache cache req.path = none →
      ¬ 400 ≤ (env.upstream req.path).status →
      (env.upstream req.path).status ≠ 304 →
      env.decode (env.upstream req.path).body = Except.ok img →
      processImage env req cache =
        ⟨Outcome.panic, insertCache cache req.path img,
          [Effect.cacheLookup req.path false, Effect.fetch req.path,
           Effect.decodeOp, Effect.cacheInsert req.path]⟩) := by
  constructor
  · intro hhit
    rw [processImage_cropEq env req cache x y w h hslash hx hy hw hh,
      cropPath_hit env req.path _ _ x y w h cache img hhit,
      cropEncode_panic env _ _ img x y w h cache _ hbad]
  · intro hmiss hst h304 hdec
    rw [processImage_cropEq env req cache x y w h hslash hx hy hw hh,
      cropPath_miss_ok env req.path _ _ x y w h cache img hmiss hst h304 hdec,
      cropEncode_panic env _ _ img x y w h _ _ hbad]


/-- C1 counterexample: the out-of-bounds crop example does not produce
an error response with status 500 citing the crop failure — the pipeline
panics, and the code constructs no response at all (`statusOf = none`). -/
theorem c1_counterexample :
    (processImage envOk c1req c1cache).outcome = Outcome.panic ∧
      statusOf (processImage envOk c1req c1cache).outcome = none :=
  ⟨rfl, rfl⟩


theorem c1_oob_crop_panics_witness :
    processImage envOk c1req c1cache =
      ⟨Outcome.panic, c1cache, [Effect.cacheLookup "/sheet.png" true]⟩ :=
  (c1_oob_crop_panics envOk c1req c1cache bmp100 10 20 200 5 rfl rfl rfl rfl
    rfl (by decide)).1 rfl


theorem copyUpstream_not_mem (resp : UpstreamResponse) :
    ∀ (names : List String) (hs : HeaderMap) (k : String),
      (∀ n ∈ names, k ≠ asciiLower n) →
      copyUpstreamHeaders resp names hs k = hs k := by
  intro names
  induction names with
  | nil => intro hs k _; rfl
  | cons n rest ih =>
    intro hs k hk
    have h1 : copyUpstreamHeaders resp (n :: rest) hs k =
        (match resp.headers n with
         | some v => hs.set n v
         | none => hs) k :=
      ih _ k (fun m hm => hk m (List.mem_cons_of_mem n hm))
    rw [h1]
    cases resp.headers n with
    | none => rfl
    | some v =>
      show (if k == asciiLower n then some v else hs k) = hs k
      have hbeq : (k == asciiLower n) = false :=
        beq_eq_false_iff_ne.mpr (hk n (List.mem_cons_self n rest))
      rw [hbeq]
      simp


/-- The headers assembled before the fetch decision contain none of the
upstream caching-header names. -/
theorem baseHeaders_upstream_none (req : Request) (fmt : ImageFormat) :
    ∀ n ∈ upstreamHeaderNames, HeaderMap.get (baseHeaders req fmt) n = none := by
  intro n hn
  unfold baseHeaders HeaderMap.get
  cases hdf : dispositionFilename req.path fmt <;>
    cases hae : req.acceptEncoding <;>
      fin_cases hn <;>
        simp +decide [HeaderMap.set, HeaderMap.empty]


/-- C10: a crop request whose path has a cached bitmap never invokes
the upstream client, so none of `last-modified`, `etag`, `cache-control`,
`expires`, `date` appear on its response, while its headers are exactly the
pre-assembled base headers — and an uncached request for the same
(path, crop) differs only by the copied upstream headers: every header
outside the passthrough set is identical between the two runs. -/
theorem c10_cached_crop_headers (env : PipelineEnv) (req : Request)
    (cache : CacheState) (img : Bitmap) (x y w h : Nat) (bytes : List Nat)
    (hslash : strEndsWith req.path '/' = false)
    (hx : req.params.x = some x) (hy : req.params.y = some y)
    (hw : req.params.w = some w) (hh : req.params.h = some h)
    (hhit : lookupCache cache req.path = some img)
    (hb : x + w ≤ img.width ∧ y + h ≤ img.height)
    (henc : env.encode (img.view x y w h)
      (outFormat req.params.format req.accept) = Except.ok bytes) :
    (processImage env req cache).outcome =
      Outcome.ok (baseHeaders req (outFormat req.params.format req.accept))
        bytes ∧
    (∀ e ∈ (processImage env req cache).effects, ∀ p, e ≠ Effect.fetch p) ∧
    (∀ n ∈ upstreamHeaderNames,
      HeaderMap.get (baseHeaders req (outFormat req.params.format req.accept))
        n = none) ∧
    (∀ cache₂ img₂ bytes₂,
      lookupCache cache₂ req.path = none →
      ¬ 400 ≤ (env.upstream req.path).status →
      (env.upstream req.path).status ≠ 304 →
      env.decode (env.upstream req.path).body = Except.ok img₂ →
      x + w ≤ img₂.width ∧ y + h ≤ img₂.height →
      env.encode (img₂.view x y w h)
        (outFormat req.params.format req.accept) = Except.ok bytes₂ →
      (processImage env req cache₂).outcome =
        Outcome.ok (copyUpstreamHeaders (env.upstream req.path)
          upstreamHeaderNames
          (baseHeaders req (outFormat req.params.format req.accept))) bytes₂ ∧
      ∀ nm, asciiLower nm ∉ upstreamHeaderNames →
        HeaderMap.get (copyUpstreamHeaders (env.upstream req.path)
          upstreamHeaderNames
          (baseHeaders req (outFormat req.params.format req.accept))) nm =
        HeaderMap.get
          (baseHeaders req (outFormat req.params.format req.accept)) nm) := by
  refine ⟨?_, ?_, baseHeaders_upstream_none req _, ?_⟩
  · rw [processImage_cropEq env req cache x y w h hslash hx hy hw hh,
      cropPath_hit env req.path _ _ x y w h cache img hhit,
      cropEncode_ok env _ _ img x y w h cache _ bytes hb henc]
  · rw [processImage_cropEq env req cache x y w h hslash hx hy hw hh,
      cropPath_hit env req.path _ _ x y w h cache img hhit,
      cropEncode_ok env _ _ img x y w h cache _ bytes hb henc]
    intro e he p
    simp at he
    rcases he with he | he <;> simp [he]
  · intro cache₂ img₂ bytes₂ hmiss hst h304 hdec hb₂ henc₂
    constructor
    · rw [processImage_cropEq env req cache₂ x y w h hslash hx hy hw hh,
        cropPath_miss_ok env req.path _ _ x y w h cache₂ img₂ hmiss hst h304
          hdec,
        cropEncode_ok env _ _ img₂ x y w h _ _ bytes₂ hb₂ henc₂]
    · intro nm hnm
      unfold HeaderMap.get
      refine copyUpstream_not_mem (env.upstream req.path) upstreamHeaderNames
        _ (asciiLower nm) ?_
      intro m hm
      rw [asciiLower_upstreamNames m hm]
      intro hcontra
      exact hnm (hcontra ▸ hm)


theorem c10_witness :
    (processImage envOk c8req c1cache).outcome =
      Outcome.ok
        (baseHeaders c8req (outFormat c8req.params.format c8req.accept))
        [9, 9] ∧
    (∀ e ∈ (processImage envOk c8req c1cache).effects,
      ∀ p, e ≠ Effect.fetch p) ∧
    (∀ n ∈ upstreamHeaderNames,
      HeaderMap.get
        (baseHeaders c8req (outFormat c8req.params.format c8req.accept)) n =
        none) :=
  (fun h => ⟨h.1, h.2.1, h.2.2.1⟩)
    (c10_cached_crop_headers envOk c8req c1cache bmp100 10 20 5 5 [9, 9]
      rfl rfl rfl rfl rfl rfl (by decide) rfl)


theorem fullImage_fetch_mem (env : PipelineEnv) (path : String)
    (hs : HeaderMap) (fmt : ImageFormat) (cache : CacheState) :
    Effect.fetch path ∈ (fullImage env path hs fmt cache).effects := by
  unfold fullImage
  rcases get_image_cases env path hs with ⟨m, hm⟩ | ⟨r, hr, _⟩ |
      ⟨img, hs', hok⟩ <;>
    rcases get_image_effs env path hs with he | he <;>
    first
      | (rw [hm, he]; simp)
      | (rw [hr, he]; simp)
      | (rw [hok, he]
         rcases henc : env.encode img fmt with e | b <;> simp [henc])


theorem fullImage_effects_cache_indep (env : PipelineEnv) (path : String)
    (hs : HeaderMap) (fmt : ImageFormat) (c₁ c₂ : CacheState) :
    (fullImage env path hs fmt c₁).effects =
      (fullImage env path hs fmt c₂).effects := by
  unfold fullImage
  rcases get_image_cases env path hs with ⟨m, hm⟩ | ⟨r, hr, _⟩ |
      ⟨img, hs', hok⟩ <;>
    first
      | (rw [hm])
      | (rw [hr])
      | (rw [hok]
         rcases henc : env.encode img fmt with e | b <;> simp [henc])


/-- C4 counterexample: two identical no-crop requests each perform the
full upstream fetch, decode and encode — no response cache is consulted or
populated, so the second identical request repeats all the transformation
work. -/
theorem c4_counterexample :
    (processImage envOk c4req []).effects =
      [Effect.fetch "/sheet.png", Effect.decodeOp,
       Effect.encodeOp 100 100 ImageFormat.Png] ∧
    (processImage envOk c4req (processImage envOk c4req []).cache).effects =
      [Effect.fetch "/sheet.png", Effect.decodeOp,
       Effect.encodeOp 100 100 ImageFormat.Png] :=
  ⟨rfl, rfl⟩


/-- C4 amended: the pipeline has no response cache: encoded bytes are
never stored or looked up. The only caching is the bitmap cache consulted
by crop requests. A no-crop request performs the upstream fetch with
effects independent of any cache state, and a repeated crop request whose
bitmap is cached skips fetch and decode but still performs the crop and
encode. -/
theorem c4_no_response_cache :
    (∀ env req cache,
      strEndsWith req.path '/' = false →
      (req.params.x = none ∨ req.params.y = none ∨ req.params.w = none ∨
        req.params.h = none) →
      (processImage env req cache).effects =
        (processImage env req []).effects ∧
      Effect.fetch req.path ∈ (processImage env req cache).effects) ∧
    (∀ env req cache img x y w h,
      strEndsWith req.path '/' = false →
      req.params.x = some x → req.params.y = some y →
      req.params.w = some w → req.params.h = some h →
      lookupCache cache req.path = some img →
      x + w ≤ img.width → y + h ≤ img.height →
      (processImage env req cache).effects =
        [Effect.cacheLookup req.path true,
         Effect.encodeOp w h (outFormat req.params.format req.accept)]) := by
  constructor
  · intro env req cache hslash hmiss
    rw [processImage_fullEq env req cache hslash hmiss,
      processImage_fullEq env req [] hslash hmiss]
    exact ⟨fullImage_effects_cache_indep .., fullImage_fetch_mem ..⟩
  · intro env req cache img x y w h hslash hx hy hw hh hhit hb1 hb2
    rw [processImage_cropEq env req cache x y w h hslash hx hy hw hh,
      cropPath_hit env req.path _ _ x y w h cache img hhit,
      cropEncode_effects env _ _ img x y w h cache _ ⟨hb1, hb2⟩]
    rfl


theorem c4_no_response_cache_witness :
    ((processImage envOk c4req c1cache).effects =
        (processImage envOk c4req []).effects ∧
      Effect.fetch "/sheet.png" ∈ (processImage envOk c4req c1cache).effects) ∧
    (processImage envOk c8req c1cache).effects =
      [Effect.cacheLookup "/sheet.png" true,
       Effect.encodeOp 5 5 (outFormat c8req.params.format c8req.accept)] :=
  ⟨c4_no_response_cache.1 envOk c4req c1cache (by decide) (Or.inl rfl),
   c4_no_response_cache.2 envOk c8req c1cache bmp100 10 20 5 5 (by decide)
     rfl rfl rfl rfl rfl (by decide) (by decide)⟩


end Unddser
